import Mathlib

/-!
Verification of the Njord data pipeline (src/Njord.py).

The script loads a nested sequence of sensor records, flattens it,
normalizes it into a tabular frame (pandas `json_normalize`), shifts the
two epoch columns up by one row, drops incomplete rows, derives a `time`
column, and drops the two epoch columns.

The embedding below models a pandas DataFrame as a list of column names
together with rows; each row is an association list from column name to an
optional integer cell (`none` models NaN/NaT).  Every row is paired with
its pandas index label (a natural number), so that `reset_index(drop=True)`
is observable.  Operations that raise a `KeyError` in pandas when a column
is absent (column-subset assignment, `to_datetime` lookup, `drop`) are
modelled as `Option`-returning functions, `none` standing for the raised
error.  Timestamps are modelled in integer nanoseconds:
`to_datetime(secs, unit="s") + to_timedelta(nanos, unit="ns")` becomes
`secs * 1000000000 + nanos`.
-/

namespace Njord

/-- A YAML/JSON value as it appears in the input records: either a scalar
number or a nested mapping. -/
inductive JVal where
  | num : Int → JVal
  | obj : List (String × JVal) → JVal

/-- An input record: a mapping from field names to values. -/
abbrev Record := List (String × JVal)

mutual

/-- Dot-joined flattening of a single field, as performed by
`pd.json_normalize` with the default separator: a scalar at `path` yields
the single column `path`; a nested mapping recurses with `path ++ "." ++ key`. -/
def flattenField (path : String) : JVal → List (String × Int)
  | .num n => [(path, n)]
  | .obj fields => flattenFields path fields

/-- Flattening of the fields of a nested mapping under a common path. -/
def flattenFields (path : String) : List (String × JVal) → List (String × Int)
  | [] => []
  | (k, v) :: rest => flattenField (path ++ "." ++ k) v ++ flattenFields path rest

end

/-- All dot-joined (path, value) pairs of one record, in field order; the
per-record part of `pd.json_normalize`. -/
def normalizeRecord : Record → List (String × Int)
  | [] => []
  | (k, v) :: rest => flattenField k v ++ normalizeRecord rest

/-- Scalar payload of a value (`0` on a nested mapping; only used on flat
records, where the default is never reached). -/
def numOf : JVal → Int
  | .num n => n
  | .obj _ => 0

/-- Whether a value is a scalar (no nesting). -/
def isNum : JVal → Bool
  | .num _ => true
  | .obj _ => false

/-- Accumulate column names in first-seen order, skipping duplicates; how
`json_normalize` builds the column index across records. -/
def addCols (acc : List String) : List String → List String
  | [] => acc
  | c :: cs => addCols (if acc.contains c then acc else acc ++ [c]) cs

/-- The column index of the normalized frame: union of all dot-joined paths
over the records, in first-seen order. -/
def frameCols (recs : List Record) : List String :=
  recs.foldl (fun acc r => addCols acc ((normalizeRecord r).map Prod.fst)) []

/-- One row of a frame: a cell (possibly null) for each column name. -/
abbrev Row := List (String × Option Int)

/-- A tabular dataset: column names, and rows paired with their pandas
index labels. -/
structure Frame where
  cols : List String
  rows : List (Nat × Row)
deriving DecidableEq, Repr

/-- Build the row of one record: a cell for every frame column, null where
the record lacks the path. -/
def makeRow (cols : List String) (cells : List (String × Int)) : Row :=
  cols.map (fun c => (c, List.lookup c cells))

/-- `pd.json_normalize` on a list of records: columns are the union of all
dot-joined paths, one row per record, fresh 0-based index. -/
def json_normalize (recs : List Record) : Frame :=
  let cols := frameCols recs
  { cols := cols
    rows := recs.enum.map (fun p => (p.1, makeRow cols (normalizeRecord p.2))) }

/-- The two epoch columns targeted by the shift and the final drop. -/
def epochCols : List String := ["secs_since_epoch", "nanos_since_epoch"]

/-- Read a cell of a row by column name; `none` when the column is absent
from the row or the cell is null. -/
def getCell (r : Row) (c : String) : Option Int :=
  (List.lookup c r).join

/-- Shift one row: cells of target columns take the value of the next
row's same-named cell (null when there is no next row); other cells are
unchanged. -/
def shiftRow (targets : List String) (cur : Row) (next : Option Row) : Row :=
  cur.map (fun kv =>
    (kv.1, if targets.contains kv.1 then next.bind (fun nr => getCell nr kv.1) else kv.2))

/-- `shift(-1)` restricted to the target columns, applied to all rows in
positional order; index labels are untouched. -/
def shiftRows (targets : List String) : List (Nat × Row) → List (Nat × Row)
  | [] => []
  | [p] => [(p.1, shiftRow targets p.2 none)]
  | p :: q :: rest => (p.1, shiftRow targets p.2 (some q.2)) :: shiftRows targets (q :: rest)

/-- The statement `data[targets] = data[targets].shift(-1)`: fails (pandas
`KeyError`) unless every target column exists. -/
def shiftFrame (f : Frame) (targets : List String) : Option Frame :=
  if targets.all (fun c => f.cols.contains c) then
    some { cols := f.cols, rows := shiftRows targets f.rows }
  else none

/-- A row with no null cell. -/
def rowComplete (r : Row) : Bool :=
  r.all (fun kv => kv.2.isSome)

/-- `dropna()`: keep only rows with no null in any column; index labels
are kept. -/
def dropna (f : Frame) : Frame :=
  { cols := f.cols, rows := f.rows.filter (fun p => rowComplete p.2) }

/-- `reset_index(drop=True)`: relabel the rows 0, 1, 2, ... in order. -/
def reset_index (f : Frame) : Frame :=
  { cols := f.cols, rows := (f.rows.map Prod.snd).enum }

/-- The derived timestamp of a row, in nanoseconds since the epoch:
`to_datetime(secs, unit="s") + to_timedelta(nanos, unit="ns")`; null when
either source cell is null or absent. -/
def rowTimeNs (r : Row) : Option Int :=
  match getCell r "secs_since_epoch", getCell r "nanos_since_epoch" with
  | some s, some n => some (s * 1000000000 + n)
  | _, _ => none

/-- Column assignment on one row: overwrite the cells of an existing
column in place, or append a new column at the end. -/
def setCellRow (c : String) (v : Option Int) (present : Bool) (r : Row) : Row :=
  if present then r.map (fun kv => (kv.1, if kv.1 == c then v else kv.2))
  else r ++ [(c, v)]

/-- The statement `data["time"] = to_datetime(...) + to_timedelta(...)`:
fails (pandas `KeyError`) unless both epoch columns exist; otherwise the
`time` column is assigned from each row's own (already shifted) epoch
cells. -/
def addTimeColumn (f : Frame) : Option Frame :=
  if f.cols.contains "secs_since_epoch" && f.cols.contains "nanos_since_epoch" then
    some { cols := if f.cols.contains "time" then f.cols else f.cols ++ ["time"]
           rows := f.rows.map
             (fun p => (p.1, setCellRow "time" (rowTimeNs p.2) (f.cols.contains "time") p.2)) }
  else none

/-- `data.drop(targets, axis="columns")`: fails unless every target column
exists; otherwise removes those columns from the index and from every row. -/
def dropColumns (f : Frame) (targets : List String) : Option Frame :=
  if targets.all (fun c => f.cols.contains c) then
    some { cols := f.cols.filter (fun c => !targets.contains c)
           rows := f.rows.map (fun p => (p.1, p.2.filter (fun kv => !targets.contains kv.1))) }
  else none

/-- The Time Reconstructor (lines 15-18 of src/Njord.py): shift the two
epoch columns up by one row, drop incomplete rows and reset the index,
derive the `time` column, and drop the two epoch columns. -/
def timeReconstruct (f : Frame) : Option Frame :=
  match shiftFrame f epochCols with
  | none => none
  | some f1 =>
    match addTimeColumn (reset_index (dropna f1)) with
    | none => none
    | some f3 => dropColumns f3 epochCols

/-- The Loader's flatten loop (lines 9-12 of src/Njord.py): append every
item of every inner sequence, in order, to an initially empty list. -/
def flattenNested (nested : List (List Record)) : List Record :=
  nested.foldl (fun acc sublist => sublist.foldl (fun acc2 item => acc2 ++ [item]) acc) []

/-- The whole data pipeline up to (and including) the Time Reconstructor. -/
def pipeline (nested : List (List Record)) : Option Frame :=
  timeReconstruct (json_normalize (flattenNested nested))

/-- A record with the two epoch fields and a temperature field. -/
def mkRec (s n t : Int) : Record :=
  [("secs_since_epoch", .num s), ("nanos_since_epoch", .num n), ("temperature", .num t)]

/-- The record of the C6 scenario: an acceleration field nesting x, y, z. -/
def accRec : Record :=
  [("acceleration", JVal.obj [("x", .num 1), ("y", .num 2), ("z", .num 3)])]

/-- Three flat records with the same key sequence, for the C9 witness. -/
def recsW9 : List Record :=
  [[("u", JVal.num 1), ("w", JVal.num 2)],
   [("u", JVal.num 3), ("w", JVal.num 4)],
   [("u", JVal.num 5), ("w", JVal.num 6)]]

/-- The three-record input whose first record lacks the temperature field;
used to refute the universal m − 1 row-count claims. -/
def recsC1 : List Record :=
  [[("secs_since_epoch", JVal.num 0), ("nanos_since_epoch", JVal.num 0)],
   mkRec 1 0 20, mkRec 2 0 21]

/-- Two complete records used for the C1 witness. -/
def recsW1 : List Record := [mkRec 0 0 5, mkRec 1 0 6]

/-- The Time Reconstructor output on `recsW1`. -/
def frameW1out : Frame :=
  ⟨["temperature", "time"], [(0, [("temperature", some 5), ("time", some 1000000000)])]⟩

/-- The three-record input (first record lacking temperature) used to
refute C7's no-other-row-removal claim. -/
def recsC7 : List Record :=
  [[("secs_since_epoch", JVal.num 10), ("nanos_since_epoch", JVal.num 0)],
   mkRec 11 0 30, mkRec 12 0 31]

/-- Three complete records for the C7 witness. -/
def recsW7 : List Record := [mkRec 20 0 1, mkRec 21 0 2, mkRec 22 0 3]

/-- The Time Reconstructor output on `recsW7`. -/
def frameW7out : Frame :=
  ⟨["temperature", "time"],
   [(0, [("temperature", some 1), ("time", some 21000000000)]),
    (1, [("temperature", some 2), ("time", some 22000000000)])]⟩

/-- A concrete two-record input used to exhibit the dropped epoch columns. -/
def recsC3 : List Record := [mkRec 3 0 15, mkRec 4 0 16]

/-- Input frame for the C3 witness. -/
def frameW3 : Frame := json_normalize [mkRec 7 0 1, mkRec 8 0 2]

/-- Output frame for the C3 witness. -/
def frameW3out : Frame :=
  ⟨["temperature", "time"], [(0, [("temperature", some 1), ("time", some 8000000000)])]⟩

/-- A concrete frame with an incomplete middle row, for the C10 witness. -/
def frameW10 : Frame :=
  ⟨["a", "b"], [(0, [("a", some 1), ("b", some 2)]),
                (1, [("a", none), ("b", some 3)]),
                (2, [("a", some 4), ("b", some 5)])]⟩

/-- Three chronologically ordered records for the C8 witness. -/
def recsW8 : List Record := [mkRec 0 100 1, mkRec 1 0 2, mkRec 5 999999999 3]

/-- The Time Reconstructor output on `recsW8`. -/
def frameW8out : Frame :=
  ⟨["temperature", "time"],
   [(0, [("temperature", some 1), ("time", some 1000000000)]),
    (1, [("temperature", some 2), ("time", some 5999999999)])]⟩

/-- Order on optional timestamps: constrains only pairs of non-null
values. -/
def cellLe (x y : Option Int) : Prop :=
  ∀ a b, x = some a → y = some b → a ≤ b

/-- Chronological comparison of two rows by their epoch-pair cells,
lexicographically; vacuously true when a cell is null or absent. -/
def chronRowB (r s : Row) : Bool :=
  match getCell r "secs_since_epoch", getCell r "nanos_since_epoch",
      getCell s "secs_since_epoch", getCell s "nanos_since_epoch" with
  | some s1, some n1, some s2, some n2 => decide (s1 < s2 ∨ (s1 = s2 ∧ n1 ≤ n2))
  | _, _, _, _ => true

/-- A nanoseconds cell holding a sub-second remainder (the data model's
reading of `nanos_since_epoch`); vacuously true when null or absent. -/
def nanosValidB (r : Row) : Bool :=
  match getCell r "nanos_since_epoch" with
  | some n => decide (0 ≤ n ∧ n < 1000000000)
  | none => true

/-! ### Association-list lookup lemmas -/

lemma lookup_map_value (h : String → Option Int → Option Int) :
    ∀ (l : Row) (c : String),
      List.lookup c (l.map (fun kv => (kv.1, h kv.1 kv.2))) = (List.lookup c l).map (h c)
  | [], _ => rfl
  | (k, v) :: tl, c => by
    by_cases hc : c = k
    · subst hc; simp [List.lookup]
    · have hbeq : (c == k) = false := beq_eq_false_iff_ne.2 hc
      simp [List.lookup, hbeq, lookup_map_value h tl c]

lemma mem_keys_tail {β : Type} {c k : String} {v : β} {tl : List (String × β)}
    (h : c ∈ ((k, v) :: tl).map Prod.fst) (hc : ¬ c = k) : c ∈ tl.map Prod.fst := by
  simp only [List.map_cons, List.mem_cons] at h
  rcases h with h' | h'
  · exact absurd h' hc
  · exact h'

lemma lookup_isSome_of_mem {β : Type} {c : String} :
    ∀ {l : List (String × β)}, c ∈ l.map Prod.fst → (List.lookup c l).isSome
  | [], h => by simp at h
  | (k, v) :: tl, h => by
    by_cases hc : c = k
    · subst hc; simp [List.lookup]
    · have hbeq : (c == k) = false := beq_eq_false_iff_ne.2 hc
      simp [List.lookup, hbeq, lookup_isSome_of_mem (mem_keys_tail h hc)]

lemma lookup_append_right {β : Type} {c : String} :
    ∀ {l1 : List (String × β)} (l2 : List (String × β)),
      c ∉ l1.map Prod.fst → List.lookup c (l1 ++ l2) = List.lookup c l2
  | [], _, _ => rfl
  | (k, v) :: tl, l2, h => by
    have hc : ¬ c = k := fun hck => h (by simp [hck])
    have hbeq : (c == k) = false := beq_eq_false_iff_ne.2 hc
    have htl : c ∉ tl.map Prod.fst := fun hm => h (by simp [hm])
    simp [List.lookup, hbeq, lookup_append_right l2 htl]

lemma lookup_filter {β : Type} (p : String → Bool) {c : String} (hc : p c = true) :
    ∀ (l : List (String × β)),
      List.lookup c (l.filter (fun kv => p kv.1)) = List.lookup c l
  | [] => rfl
  | (k, v) :: tl => by
    by_cases hck : c = k
    · subst hck; simp [List.filter, hc, List.lookup]
    · have hbeq : (c == k) = false := beq_eq_false_iff_ne.2 hck
      by_cases hk : p k = true
      · simp [List.filter, hk, List.lookup, hbeq, lookup_filter p hc tl]
      · simp [List.filter, Bool.eq_false_iff.2 hk, List.lookup, hbeq, lookup_filter p hc tl]

/-! ### Cell-level lemmas about rows -/

lemma keys_shiftRow (targets : List String) (r : Row) (nxt : Option Row) :
    (shiftRow targets r nxt).map Prod.fst = r.map Prod.fst := by
  simp [shiftRow]

lemma getCell_map_value (h : String → Option Int → Option Int) (l : Row) (c : String) :
    getCell (l.map (fun kv => (kv.1, h kv.1 kv.2))) c = ((List.lookup c l).map (h c)).join := by
  simp [getCell, lookup_map_value]

lemma getCell_shiftRow (targets : List String) (r : Row) (nxt : Option Row) (c : String)
    (hmem : c ∈ r.map Prod.fst) (hc : targets.contains c = true) :
    getCell (shiftRow targets r nxt) c = nxt.bind (fun nr => getCell nr c) := by
  obtain ⟨v, hv⟩ := Option.isSome_iff_exists.1 (lookup_isSome_of_mem hmem)
  have h2 : getCell (shiftRow targets r nxt) c =
      ((List.lookup c r).map
        (fun w => if targets.contains c = true then nxt.bind (fun nr => getCell nr c) else w)).join :=
    getCell_map_value
      (fun k w => if targets.contains k = true then nxt.bind (fun nr => getCell nr k) else w) r c
  rw [h2, hv]
  simp only [Option.map_some']
  rw [if_pos hc]
  rfl

lemma getCell_isSome_of_complete :
    ∀ {r : Row}, rowComplete r = true → ∀ {c : String}, c ∈ r.map Prod.fst →
      (getCell r c).isSome
  | [], _, _, hmem => by simp at hmem
  | (k, v) :: tl, hr, c, hmem => by
    have hr' : v.isSome = true ∧ rowComplete tl = true := by
      simpa [rowComplete] using hr
    by_cases hc : c = k
    · subst hc; simpa [getCell, List.lookup] using hr'.1
    · have hbeq : (c == k) = false := beq_eq_false_iff_ne.2 hc
      simpa [getCell, List.lookup, hbeq] using
        getCell_isSome_of_complete hr'.2 (mem_keys_tail hmem hc)

/-! ### Inversion lemmas for the fallible pipeline steps -/

lemma shiftFrame_some {f f1 : Frame} {ts : List String} (h : shiftFrame f ts = some f1) :
    ts.all (fun c => f.cols.contains c) = true ∧
      f1 = ⟨f.cols, shiftRows ts f.rows⟩ := by
  unfold shiftFrame at h
  split at h
  · exact ⟨by assumption, (Option.some.inj h).symm⟩
  · exact absurd h (by simp)

lemma addTimeColumn_some {f f3 : Frame} (h : addTimeColumn f = some f3) :
    (f.cols.contains "secs_since_epoch" && f.cols.contains "nanos_since_epoch") = true ∧
      f3 = ⟨if f.cols.contains "time" then f.cols else f.cols ++ ["time"],
            f.rows.map
              (fun p => (p.1, setCellRow "time" (rowTimeNs p.2) (f.cols.contains "time") p.2))⟩ := by
  unfold addTimeColumn at h
  split at h
  · exact ⟨by assumption, (Option.some.inj h).symm⟩
  · exact absurd h (by simp)

lemma dropColumns_some {f g : Frame} {ts : List String} (h : dropColumns f ts = some g) :
    ts.all (fun c => f.cols.contains c) = true ∧
      g = ⟨f.cols.filter (fun c => !ts.contains c),
           f.rows.map (fun p => (p.1, p.2.filter (fun kv => !ts.contains kv.1)))⟩ := by
  unfold dropColumns at h
  split at h
  · exact ⟨by assumption, (Option.some.inj h).symm⟩
  · exact absurd h (by simp)

lemma timeReconstruct_some {f g : Frame} (h : timeReconstruct f = some g) :
    ∃ f1 f3, shiftFrame f epochCols = some f1 ∧
      addTimeColumn (reset_index (dropna f1)) = some f3 ∧
      dropColumns f3 epochCols = some g := by
  unfold timeReconstruct at h
  split at h
  · exact absurd h (by simp)
  · rename_i f1 h1
    split at h
    · exact absurd h (by simp)
    · rename_i f3 h3
      exact ⟨f1, f3, h1, h3, h⟩

/-! ### The Loader's flatten loop -/

lemma foldl_append_one {α : Type} : ∀ (l acc : List α),
    l.foldl (fun a i => a ++ [i]) acc = acc ++ l
  | [], _ => by simp
  | x :: xs, acc => by
    simpa [List.append_assoc] using foldl_append_one xs (acc ++ [x])

lemma flattenNested_foldl : ∀ (nested : List (List Record)) (acc : List Record),
    nested.foldl (fun acc2 sublist => sublist.foldl (fun a i => a ++ [i]) acc2) acc =
      acc ++ nested.flatten
  | [], _ => by simp
  | sub :: rest, acc => by
    simpa [foldl_append_one, List.append_assoc] using flattenNested_foldl rest (acc ++ sub)

end Njord

namespace Njord

/-- C5: the Loader's flattened output is the concatenation of the inner
sequences: it has exactly as many records as the input has in total, in
the original relative order within and across the inner sequences. -/
theorem c5_loader_flatten (nested : List (List Record)) :
    flattenNested nested = nested.flatten ∧
    (flattenNested nested).length = (nested.map List.length).sum := by
  have h : flattenNested nested = nested.flatten := by
    simpa using flattenNested_foldl nested []
  exact ⟨h, by rw [h]; exact List.length_flatten _⟩

/-- C2: on the two-record input of the scenario, the pipeline through the
Time Reconstructor yields exactly one row, whose temperature is 20 and
whose derived time is 1500000000 ns — that is, 1.5 seconds after the epoch
start. -/
theorem c2_scenario :
    pipeline [[mkRec 0 0 20, mkRec 1 500000000 21]] =
      some { cols := ["temperature", "time"]
             rows := [(0, [("temperature", some 20), ("time", some 1500000000)])] } := by
  rfl

/-- C4 counterexample: on the empty outer sequence the Time Reconstructor
does not fail gracefully and does not produce an empty tabular dataset:
the shift step's column lookup fails (a pandas `KeyError`, modelled as
`none`), because the empty normalized frame has no columns at all. -/
theorem c4_counterexample :
    flattenNested [] = [] ∧ pipeline [] = none := ⟨rfl, rfl⟩

/-! ### Frame-level invariants and the shift/drop row count -/

lemma keys_makeRow (cols : List String) (cells : List (String × Int)) :
    (makeRow cols cells).map Prod.fst = cols := by
  have h : (Prod.fst ∘ fun c => (c, List.lookup c cells)) = fun c : String => c := rfl
  simp [makeRow, h]

lemma keys_json_normalize (recs : List Record) :
    ∀ p ∈ (json_normalize recs).rows, p.2.map Prod.fst = frameCols recs := by
  intro p hp
  have hrows : (json_normalize recs).rows =
      recs.enum.map (fun q => (q.1, makeRow (frameCols recs) (normalizeRecord q.2))) := rfl
  rw [hrows] at hp
  obtain ⟨q, _, hqe⟩ := List.mem_map.1 hp
  rw [← hqe]
  exact keys_makeRow _ _

lemma rowComplete_shiftRow_some (targets : List String) {r s : Row}
    (hr : rowComplete r = true) (hs : rowComplete s = true)
    (hsub : ∀ c ∈ r.map Prod.fst, c ∈ s.map Prod.fst) :
    rowComplete (shiftRow targets r (some s)) = true := by
  rw [rowComplete, List.all_eq_true]
  intro kv hkv
  obtain ⟨kv0, hkv0, hkve⟩ := List.mem_map.1 hkv
  rw [← hkve]
  dsimp only
  split
  · exact getCell_isSome_of_complete hs (hsub _ (List.mem_map_of_mem Prod.fst hkv0))
  · exact List.all_eq_true.1 hr kv0 hkv0

lemma rowComplete_shiftRow_none {targets : List String} {r : Row} {c0 : String}
    (hc0 : targets.contains c0 = true) (hmem : c0 ∈ r.map Prod.fst) :
    rowComplete (shiftRow targets r none) = false := by
  obtain ⟨kv, hkv, hfst⟩ := List.mem_map.1 hmem
  rw [Bool.eq_false_iff]
  intro hall
  have h2 := List.all_eq_true.1 hall _
    (List.mem_map_of_mem (fun kv =>
      (kv.1, if targets.contains kv.1 = true then (none : Option Row).bind
        (fun nr => getCell nr kv.1) else kv.2)) hkv)
  rw [hfst, if_pos hc0] at h2
  simp at h2

lemma length_filter_shiftRows (targets cols : List String) (c0 : String)
    (hc0m : c0 ∈ cols) (hc0t : targets.contains c0 = true) :
    ∀ (l : List (Nat × Row)),
      (∀ p ∈ l, rowComplete p.2 = true) →
      (∀ p ∈ l, p.2.map Prod.fst = cols) →
      ((shiftRows targets l).filter (fun p => rowComplete p.2)).length = l.length - 1
  | [], _, _ => by simp [shiftRows]
  | [p], _, hkeys => by
    have h1 : rowComplete (shiftRow targets p.2 none) = false :=
      rowComplete_shiftRow_none hc0t (by rw [hkeys p (by simp)]; exact hc0m)
    simp [shiftRows, h1]
  | p :: q :: rest, hcomp, hkeys => by
    have hsub : ∀ c ∈ p.2.map Prod.fst, c ∈ q.2.map Prod.fst := by
      rw [hkeys p (by simp), hkeys q (by simp)]
      exact fun c hc => hc
    have h1 : rowComplete (shiftRow targets p.2 (some q.2)) = true :=
      rowComplete_shiftRow_some targets (hcomp p (by simp)) (hcomp q (by simp)) hsub
    have ih := length_filter_shiftRows targets cols c0 hc0m hc0t (q :: rest)
      (fun x hx => hcomp x (List.mem_cons_of_mem _ hx))
      (fun x hx => hkeys x (List.mem_cons_of_mem _ hx))
    show ((((p.1, shiftRow targets p.2 (some q.2)) :: shiftRows targets (q :: rest)).filter
      (fun x => rowComplete x.2)).length) = _
    have hfc : ((p.1, shiftRow targets p.2 (some q.2)) :: shiftRows targets (q :: rest)).filter
        (fun x => rowComplete x.2) =
        (p.1, shiftRow targets p.2 (some q.2)) ::
          (shiftRows targets (q :: rest)).filter (fun x => rowComplete x.2) := by
      rw [List.filter_cons]
      simp [h1]
    rw [hfc]
    simp only [List.length_cons] at ih ⊢
    omega

lemma length_rows_json_normalize (recs : List Record) :
    (json_normalize recs).rows.length = recs.length := by
  show (recs.enum.map _).length = recs.length
  rw [List.length_map, List.enum_length]

/-! ### Column-union and single-record normalization lemmas -/

lemma addCols_append_of_nodup : ∀ (l acc : List String),
    (acc ++ l).Nodup → addCols acc l = acc ++ l
  | [], acc, _ => by simp [addCols]
  | c :: cs, acc, h => by
    have hc : ¬ acc.contains c = true := by
      intro hcon
      exact (List.disjoint_of_nodup_append h) (List.mem_of_elem_eq_true hcon) (by simp)
    rw [addCols, if_neg hc]
    have := addCols_append_of_nodup cs (acc ++ [c])
      (by rwa [List.append_assoc, List.singleton_append])
    rwa [List.append_assoc, List.singleton_append] at this

lemma addCols_of_contains : ∀ (l acc : List String),
    (∀ c ∈ l, acc.contains c = true) → addCols acc l = acc
  | [], _, _ => rfl
  | c :: cs, acc, h => by
    rw [addCols, if_pos (h c (by simp))]
    exact addCols_of_contains cs acc (fun x hx => h x (List.mem_cons_of_mem _ hx))

lemma foldl_frame_const : ∀ (recs : List Record) (K : List String),
    (∀ r ∈ recs, ∀ c ∈ (normalizeRecord r).map Prod.fst, K.contains c = true) →
    recs.foldl (fun acc r => addCols acc ((normalizeRecord r).map Prod.fst)) K = K
  | [], _, _ => rfl
  | r :: rs, K, h => by
    rw [List.foldl_cons, addCols_of_contains _ _ (h r (by simp))]
    exact foldl_frame_const rs K (fun x hx => h x (List.mem_cons_of_mem _ hx))

lemma makeRow_self : ∀ (cells : List (String × Int)), ((cells.map Prod.fst).Nodup) →
    makeRow (cells.map Prod.fst) cells = cells.map (fun kv => (kv.1, some kv.2))
  | [], _ => rfl
  | (k, v) :: tl, h => by
    have h' : (k :: tl.map Prod.fst).Nodup := h
    have hk : k ∉ tl.map Prod.fst := (List.nodup_cons.1 h').1
    have htl : (tl.map Prod.fst).Nodup := (List.nodup_cons.1 h').2
    show (k, List.lookup k ((k, v) :: tl)) ::
        (tl.map Prod.fst).map (fun c => (c, List.lookup c ((k, v) :: tl))) =
        (k, some v) :: tl.map (fun kv => (kv.1, some kv.2))
    congr 1
    · simp [List.lookup]
    · have hcong : ∀ c ∈ tl.map Prod.fst,
          ((c, List.lookup c ((k, v) :: tl)) : String × Option Int) = (c, List.lookup c tl) := by
        intro c hc
        have hck : ¬ c = k := fun he => hk (he ▸ hc)
        have hbeq : (c == k) = false := beq_eq_false_iff_ne.2 hck
        simp [List.lookup, hbeq]
      rw [List.map_congr_left hcong]
      exact makeRow_self tl htl

lemma normalizeRecord_flat : ∀ (rec : Record), (∀ kv ∈ rec, isNum kv.2 = true) →
    normalizeRecord rec = rec.map (fun kv => (kv.1, numOf kv.2))
  | [], _ => rfl
  | (k, v) :: tl, h => by
    have hv : isNum v = true := h (k, v) (by simp)
    cases v with
    | num n =>
      show flattenField k (.num n) ++ normalizeRecord tl = _
      rw [flattenField, normalizeRecord_flat tl (fun kv hkv => h kv (List.mem_cons_of_mem _ hkv))]
      rfl
    | obj fields => simp [isNum] at hv

lemma keys_map_pair {β γ : Type} (g : String × β → γ) (rec : List (String × β)) :
    (rec.map (fun kv => (kv.1, g kv))).map Prod.fst = rec.map Prod.fst := by
  rw [List.map_map]
  rfl

/-- C6: a record whose dot-joined paths are distinct normalizes to a frame
with exactly one column per dot-joined path from the record root, holding
the corresponding scalar values; in particular a nested mapping field
contributes one column per leaf. -/
theorem c6_normalizer_dot_paths (r : Record)
    (hnd : ((normalizeRecord r).map Prod.fst).Nodup) :
    json_normalize [r] =
      ⟨(normalizeRecord r).map Prod.fst,
       [(0, (normalizeRecord r).map (fun kv => (kv.1, some kv.2)))]⟩ := by
  have hcols : frameCols [r] = (normalizeRecord r).map Prod.fst := by
    show addCols [] ((normalizeRecord r).map Prod.fst) = _
    simpa using addCols_append_of_nodup ((normalizeRecord r).map Prod.fst) [] (by simpa using hnd)
  have hjn : json_normalize [r] =
      ⟨frameCols [r], [(0, makeRow (frameCols [r]) (normalizeRecord r))]⟩ := rfl
  rw [hjn, hcols, makeRow_self _ hnd]

/-- C6 witness: the record containing acceleration x=1, y=2, z=3
normalizes to the three columns acceleration.x = 1, acceleration.y = 2,
acceleration.z = 3. -/
theorem c6_witness :
    json_normalize [accRec] =
      ⟨["acceleration.x", "acceleration.y", "acceleration.z"],
       [(0, [("acceleration.x", some 1), ("acceleration.y", some 2),
             ("acceleration.z", some 3)])]⟩ := by
  rw [c6_normalizer_dot_paths accRec (by decide)]
  rfl

/-- C9: normalizing an already-flat record set (no nested mapping fields,
all records sharing the same distinct key sequence) is the identity up to
cell wrapping: the output has exactly the original columns, the original
rows in order, and the original values. -/
theorem c9_normalizer_flat_noop (r0 : Record) (rest : List Record)
    (hflat : ∀ rec ∈ r0 :: rest, ∀ kv ∈ rec, isNum kv.2 = true)
    (hkeys : ∀ rec ∈ r0 :: rest, rec.map Prod.fst = r0.map Prod.fst)
    (hnd : (r0.map Prod.fst).Nodup) :
    json_normalize (r0 :: rest) =
      ⟨r0.map Prod.fst,
       (r0 :: rest).enum.map
         (fun p => (p.1, p.2.map (fun kv => (kv.1, some (numOf kv.2)))))⟩ := by
  have hpaths : ∀ rec ∈ r0 :: rest, (normalizeRecord rec).map Prod.fst = r0.map Prod.fst := by
    intro rec hrec
    rw [normalizeRecord_flat rec (hflat rec hrec), keys_map_pair]
    exact hkeys rec hrec
  have hcols : frameCols (r0 :: rest) = r0.map Prod.fst := by
    show List.foldl _ [] (r0 :: rest) = _
    rw [List.foldl_cons]
    have h0 : addCols [] ((normalizeRecord r0).map Prod.fst) = r0.map Prod.fst := by
      rw [hpaths r0 (by simp)]
      simpa using addCols_append_of_nodup (r0.map Prod.fst) [] (by simpa using hnd)
    rw [h0]
    exact foldl_frame_const rest (r0.map Prod.fst) (fun r hr c hc => by
      have : c ∈ r0.map Prod.fst := by
        rw [← hpaths r (List.mem_cons_of_mem _ hr)]
        exact hc
      exact List.elem_eq_true_of_mem this)
  have hjn : json_normalize (r0 :: rest) =
      ⟨frameCols (r0 :: rest),
       (r0 :: rest).enum.map
         (fun p => (p.1, makeRow (frameCols (r0 :: rest)) (normalizeRecord p.2)))⟩ := rfl
  rw [hjn, hcols]
  congr 1
  apply List.map_congr_left
  intro p hp
  have hpm : p.2 ∈ r0 :: rest := by
    have := List.mem_map_of_mem Prod.snd hp
    rwa [List.enum_map_snd] at this
  have hcells : (normalizeRecord p.2).map Prod.fst = r0.map Prod.fst := hpaths p.2 hpm
  congr 1
  rw [← hcells, makeRow_self _ (by rw [hcells]; exact hnd),
    normalizeRecord_flat p.2 (hflat p.2 hpm), List.map_map]
  rfl

/-- C9 witness: normalizing three flat two-field records returns exactly
the original columns, rows, and values. -/
theorem c9_witness :
    json_normalize recsW9 =
      ⟨["u", "w"],
       [(0, [("u", some 1), ("w", some 2)]),
        (1, [("u", some 3), ("w", some 4)]),
        (2, [("u", some 5), ("w", some 6)])]⟩ := by
  show json_normalize
    ([("u", JVal.num 1), ("w", JVal.num 2)] ::
      [[("u", JVal.num 3), ("w", JVal.num 4)], [("u", JVal.num 5), ("w", JVal.num 6)]]) = _
  rw [c9_normalizer_flat_noop [("u", JVal.num 1), ("w", JVal.num 2)]
    [[("u", JVal.num 3), ("w", JVal.num 4)], [("u", JVal.num 5), ("w", JVal.num 6)]]
    (by decide) (by decide) (by decide)]
  rfl

/-- C1 counterexample: the Normalizer output for `recsC1` has 3 rows, but
the Time Reconstructor returns only 1 row, not 3 − 1 = 2: the first row
also has a null (its record lacks the temperature field) and `dropna`
removes it as well. -/
theorem c1_counterexample :
    (json_normalize recsC1).rows.length = 3 ∧
    (timeReconstruct (json_normalize recsC1)).map (fun g => g.rows.length) = some 1 ∧
    (1 : Nat) ≠ 3 - 1 :=
  ⟨rfl, rfl, by decide⟩

/-- C1 amended: for every record set whose normalized tabular dataset has
m rows, contains the epoch columns, and has no null cell, the Time
Reconstructor outputs exactly m − 1 rows. -/
theorem c1_amended (recs : List Record) (g : Frame)
    (hs : "secs_since_epoch" ∈ frameCols recs)
    (hcomp : ∀ p ∈ (json_normalize recs).rows, rowComplete p.2 = true)
    (hg : timeReconstruct (json_normalize recs) = some g) :
    g.rows.length = recs.length - 1 := by
  obtain ⟨f1, f3, h1, h3, hdrop⟩ := timeReconstruct_some hg
  obtain ⟨hall1, hf1⟩ := shiftFrame_some h1
  obtain ⟨hcols2, hf3⟩ := addTimeColumn_some h3
  obtain ⟨hall3, hgeq⟩ := dropColumns_some hdrop
  subst hf1 hf3 hgeq
  simp only [List.length_map]
  have hrw : (reset_index (dropna
      (⟨(json_normalize recs).cols, shiftRows epochCols (json_normalize recs).rows⟩ : Frame))).rows.length
      = ((shiftRows epochCols (json_normalize recs).rows).filter
          (fun p => rowComplete p.2)).length := by
    simp [reset_index, dropna, List.enum_length]
  rw [hrw, length_filter_shiftRows epochCols (frameCols recs) "secs_since_epoch" hs (by decide)
    (json_normalize recs).rows hcomp (keys_json_normalize recs),
    length_rows_json_normalize]

/-- C1 witness: the amended row count at a concrete complete input of two
records. -/
theorem c1_witness : frameW1out.rows.length = recsW1.length - 1 :=
  c1_amended recsW1 frameW1out (by decide) (by decide) rfl

/-! ### Row-content preservation through the shift and drop steps -/

lemma filter_nonTargets_shiftRow (targets : List String) (nxt : Option Row) :
    ∀ (r : Row),
      (shiftRow targets r nxt).filter (fun kv => !targets.contains kv.1) =
        r.filter (fun kv => !targets.contains kv.1)
  | [] => rfl
  | kv :: tl => by
    show ((kv.1, if targets.contains kv.1 = true then _ else kv.2) ::
        shiftRow targets tl nxt).filter _ = _
    by_cases h : targets.contains kv.1 = true
    · rw [List.filter_cons, List.filter_cons]
      simp only [h]
      simpa using filter_nonTargets_shiftRow targets nxt tl
    · have hb : targets.contains kv.1 = false := Bool.eq_false_iff.2 h
      rw [List.filter_cons, List.filter_cons]
      simp only [hb, if_neg h]
      simpa using filter_nonTargets_shiftRow targets nxt tl

lemma keys_shiftRows_uniform (targets cols : List String) :
    ∀ (l : List (Nat × Row)), (∀ p ∈ l, p.2.map Prod.fst = cols) →
      ∀ p ∈ shiftRows targets l, p.2.map Prod.fst = cols
  | [], _, p, hp => by simp [shiftRows] at hp
  | [q], h, p, hp => by
    have hp' : p = (q.1, shiftRow targets q.2 none) := by simpa [shiftRows] using hp
    rw [hp']
    show (shiftRow targets q.2 none).map Prod.fst = cols
    rw [keys_shiftRow]
    exact h q (by simp)
  | q :: q2 :: rest, h, p, hp => by
    rcases List.mem_cons.1 hp with he | htail
    · rw [he]
      show (shiftRow targets q.2 (some q2.2)).map Prod.fst = cols
      rw [keys_shiftRow]
      exact h q (by simp)
    · exact keys_shiftRows_uniform targets cols (q2 :: rest)
        (fun x hx => h x (List.mem_cons_of_mem _ hx)) p htail

lemma enum_map_snd_fun {α β : Type} (h : α → β) (xs : List α) :
    xs.enum.map (fun p => h p.2) = xs.map h := by
  have h1 : xs.enum.map (fun p => h p.2) = (xs.enum.map Prod.snd).map h := by
    rw [List.map_map]
    rfl
  rw [h1, List.enum_map_snd]

lemma filter_complete_shiftRows_eq (targets cols : List String) (c0 : String)
    (hc0m : c0 ∈ cols) (hc0t : targets.contains c0 = true) :
    ∀ (l : List (Nat × Row)),
      (∀ p ∈ l, rowComplete p.2 = true) →
      (∀ p ∈ l, p.2.map Prod.fst = cols) →
      (((shiftRows targets l).filter (fun p => rowComplete p.2)).map
          (fun p => p.2.filter (fun kv => !targets.contains kv.1))) =
        (l.dropLast).map (fun p => p.2.filter (fun kv => !targets.contains kv.1))
  | [], _, _ => by simp [shiftRows]
  | [p], _, hkeys => by
    have h1 : rowComplete (shiftRow targets p.2 none) = false :=
      rowComplete_shiftRow_none hc0t (by rw [hkeys p (by simp)]; exact hc0m)
    simp [shiftRows, h1]
  | p :: q :: rest, hcomp, hkeys => by
    have hsub : ∀ c ∈ p.2.map Prod.fst, c ∈ q.2.map Prod.fst := by
      rw [hkeys p (by simp), hkeys q (by simp)]
      exact fun c hc => hc
    have h1 : rowComplete (shiftRow targets p.2 (some q.2)) = true :=
      rowComplete_shiftRow_some targets (hcomp p (by simp)) (hcomp q (by simp)) hsub
    have ih := filter_complete_shiftRows_eq targets cols c0 hc0m hc0t (q :: rest)
      (fun x hx => hcomp x (List.mem_cons_of_mem _ hx))
      (fun x hx => hkeys x (List.mem_cons_of_mem _ hx))
    show ((((p.1, shiftRow targets p.2 (some q.2)) :: shiftRows targets (q :: rest)).filter
      (fun x => rowComplete x.2)).map _) = (p :: (q :: rest).dropLast).map _
    have hfc : ((p.1, shiftRow targets p.2 (some q.2)) :: shiftRows targets (q :: rest)).filter
        (fun x => rowComplete x.2) =
        (p.1, shiftRow targets p.2 (some q.2)) ::
          (shiftRows targets (q :: rest)).filter (fun x => rowComplete x.2) := by
      rw [List.filter_cons]
      simp [h1]
    rw [hfc, List.map_cons, List.map_cons]
    congr 1
    exact filter_nonTargets_shiftRow targets (some q.2) p.2

/-- C7 counterexample: on `recsC7` the final dataset has a single row while
the original flattened order minus the trailing row has two rows — a
non-trailing row (whose record lacks the temperature field) was also
removed, so the output does not match the original order minus only the
trailing row. -/
theorem c7_counterexample :
    (timeReconstruct (json_normalize recsC7)).map (fun g => g.rows.length) = some 1 ∧
    ((json_normalize recsC7).rows.dropLast).length = 2 ∧ (1 : Nat) ≠ 2 :=
  ⟨rfl, rfl, by decide⟩

/-- C7 amended: when the normalized dataset contains the epoch columns, has
no pre-existing time column and no null cell, the rows of the Time
Reconstructor output are exactly the original rows in order with only the
trailing row removed: stripping the derived time column from the output
yields the original rows (minus their epoch columns) with the last row
dropped, in order. -/
theorem c7_amended (recs : List Record) (g : Frame)
    (hs : "secs_since_epoch" ∈ frameCols recs)
    (ht : "time" ∉ frameCols recs)
    (hcomp : ∀ p ∈ (json_normalize recs).rows, rowComplete p.2 = true)
    (hg : timeReconstruct (json_normalize recs) = some g) :
    g.rows.map (fun p => p.2.filter (fun kv => !(kv.1 == "time"))) =
      ((json_normalize recs).rows.dropLast).map
        (fun p => p.2.filter (fun kv => !epochCols.contains kv.1)) := by
  obtain ⟨f1, f3, h1, h3, hdrop⟩ := timeReconstruct_some hg
  obtain ⟨hall1, hf1⟩ := shiftFrame_some h1
  obtain ⟨hcols2, hf3⟩ := addTimeColumn_some h3
  obtain ⟨hall3, hgeq⟩ := dropColumns_some hdrop
  have hrowseq : (reset_index (dropna f1)).rows =
      (((shiftRows epochCols (json_normalize recs).rows).filter
        (fun x => rowComplete x.2)).map Prod.snd).enum := by
    rw [hf1]
    rfl
  have hpres : (reset_index (dropna f1)).cols.contains "time" = false := by
    rw [hf1]
    show (frameCols recs).contains "time" = false
    cases hcon : (frameCols recs).contains "time"
    · rfl
    · exact absurd (List.mem_of_elem_eq_true hcon) ht
  have hkeys2 : ∀ p ∈ (reset_index (dropna f1)).rows, p.2.map Prod.fst = frameCols recs := by
    intro p hp
    rw [hrowseq] at hp
    have hmem := List.mem_map_of_mem Prod.snd hp
    rw [List.enum_map_snd] at hmem
    obtain ⟨q, hq, hqe⟩ := List.mem_map.1 hmem
    rw [← hqe]
    exact keys_shiftRows_uniform epochCols (frameCols recs) (json_normalize recs).rows
      (keys_json_normalize recs) q (List.mem_filter.1 hq).1
  subst hgeq hf3
  rw [List.map_map, List.map_map]
  have hstrip : ∀ p ∈ (reset_index (dropna f1)).rows,
      (fun x : Nat × Row => ((setCellRow "time" (rowTimeNs x.2)
          ((reset_index (dropna f1)).cols.contains "time") x.2).filter
          (fun kv => !epochCols.contains kv.1)).filter (fun kv => !(kv.1 == "time"))) p =
      (fun x : Nat × Row => x.2.filter (fun kv => !epochCols.contains kv.1)) p := by
    intro p hp
    have hk := hkeys2 p hp
    show ((setCellRow "time" (rowTimeNs p.2) ((reset_index (dropna f1)).cols.contains "time")
      p.2).filter (fun kv => !epochCols.contains kv.1)).filter
        (fun kv => !(kv.1 == "time")) = p.2.filter (fun kv => !epochCols.contains kv.1)
    rw [hpres]
    show ((p.2 ++ [("time", rowTimeNs p.2)]).filter (fun kv => !epochCols.contains kv.1)).filter
        (fun kv => !(kv.1 == "time")) = _
    rw [List.filter_append, List.filter_append]
    have hone : ([(("time" : String), rowTimeNs p.2)].filter
        (fun kv => !epochCols.contains kv.1)) = [("time", rowTimeNs p.2)] := by
      simp [epochCols]
    rw [hone]
    have htwo : ([(("time" : String), rowTimeNs p.2)].filter
        (fun kv => !(kv.1 == "time"))) = [] := by
      simp
    rw [htwo, List.append_nil]
    apply List.filter_eq_self.2
    intro kv hkv
    have hkmem : kv.1 ∈ p.2.map Prod.fst := List.mem_map_of_mem Prod.fst (List.mem_filter.1 hkv).1
    rw [hk] at hkmem
    have hne : ¬ kv.1 = "time" := fun he => ht (he ▸ hkmem)
    simpa using beq_eq_false_iff_ne.2 hne
  have h2 := filter_complete_shiftRows_eq epochCols (frameCols recs) "secs_since_epoch" hs
    (by decide) (json_normalize recs).rows hcomp (keys_json_normalize recs)
  have h1e := enum_map_snd_fun (fun r : Row => r.filter (fun kv => !epochCols.contains kv.1))
    (((shiftRows epochCols (json_normalize recs).rows).filter
      (fun x => rowComplete x.2)).map Prod.snd)
  have hrest : (reset_index (dropna f1)).rows.map
      (fun x : Nat × Row => x.2.filter (fun kv => !epochCols.contains kv.1)) =
      ((json_normalize recs).rows.dropLast).map
        (fun p => p.2.filter (fun kv => !epochCols.contains kv.1)) := by
    rw [hrowseq]
    exact h1e.trans ((List.map_map _ _ _).trans h2)
  exact (List.map_congr_left hstrip).trans hrest

/-- C7 witness: the amended row-order statement at a concrete complete
three-record input. -/
theorem c7_witness :
    frameW7out.rows.map (fun p => p.2.filter (fun kv => !(kv.1 == "time"))) =
      ((json_normalize recsW7).rows.dropLast).map
        (fun p => p.2.filter (fun kv => !epochCols.contains kv.1)) :=
  c7_amended recsW7 frameW7out (by decide) (by decide) (by decide) rfl

/-- C3 counterexample: on a concrete two-record input the Time
Reconstructor's result has columns `["temperature", "time"]` only — the
two source columns `secs_since_epoch` and `nanos_since_epoch` are not left
in the resulting tabular dataset. -/
theorem c3_counterexample :
    timeReconstruct (json_normalize recsC3) =
      some ⟨["temperature", "time"],
            [(0, [("temperature", some 15), ("time", some 4000000000)])]⟩ ∧
    "secs_since_epoch" ∉ (["temperature", "time"] : List String) ∧
    "nanos_since_epoch" ∉ (["temperature", "time"] : List String) :=
  ⟨rfl, by decide, by decide⟩

/-- C3 amended: whenever the Time Reconstructor succeeds, its result
contains the derived `time` column but neither of the two source columns
`secs_since_epoch` and `nanos_since_epoch` — the script drops them
explicitly. -/
theorem c3_amended (f g : Frame) (hg : timeReconstruct f = some g) :
    "time" ∈ g.cols ∧ "secs_since_epoch" ∉ g.cols ∧ "nanos_since_epoch" ∉ g.cols := by
  obtain ⟨f1, f3, h1, h3, hdrop⟩ := timeReconstruct_some hg
  obtain ⟨hall, hgeq⟩ := dropColumns_some hdrop
  obtain ⟨hcols2, hf3⟩ := addTimeColumn_some h3
  refine ⟨?_, ?_, ?_⟩
  · rw [hgeq]
    apply List.mem_filter.2
    refine ⟨?_, by decide⟩
    rw [hf3]
    dsimp only
    split
    · rename_i hpres
      exact List.mem_of_elem_eq_true hpres
    · exact List.mem_append_right _ (by simp)
  · intro hmem
    rw [hgeq] at hmem
    exact absurd (List.mem_filter.1 hmem).2 (by decide)
  · intro hmem
    rw [hgeq] at hmem
    exact absurd (List.mem_filter.1 hmem).2 (by decide)

/-- C3 witness: the amended statement at a concrete successful run. -/
theorem c3_witness :
    "time" ∈ frameW3out.cols ∧ "secs_since_epoch" ∉ frameW3out.cols ∧
      "nanos_since_epoch" ∉ frameW3out.cols :=
  c3_amended frameW3 frameW3out rfl

/-- C10: after `dropna().reset_index(drop=True)` — the Time
Reconstructor's drop step — no cell of any column is null, the row index
labels are exactly the contiguous sequence 0, ..., k-1, and any row with a
null in any column (epoch column or not) is absent from the result. -/
theorem c10_drop_step (f : Frame) :
    (∀ p ∈ (reset_index (dropna f)).rows, rowComplete p.2 = true) ∧
    (reset_index (dropna f)).rows.map Prod.fst =
      List.range (reset_index (dropna f)).rows.length ∧
    (∀ p ∈ f.rows, rowComplete p.2 = false →
      ∀ q ∈ (reset_index (dropna f)).rows, q.2 ≠ p.2) := by
  have hrows : (reset_index (dropna f)).rows =
      ((f.rows.filter (fun r => rowComplete r.2)).map Prod.snd).enum := rfl
  refine ⟨?_, ?_, ?_⟩
  · intro p hp
    rw [hrows] at hp
    have h2 : p.2 ∈ (f.rows.filter (fun r => rowComplete r.2)).map Prod.snd := by
      have := List.mem_map_of_mem Prod.snd hp
      rwa [List.enum_map_snd] at this
    obtain ⟨q, hq, hqe⟩ := List.mem_map.1 h2
    have := (List.mem_filter.1 hq).2
    rw [hqe] at this
    exact this
  · rw [hrows, List.enum_map_fst, List.enum_length]
  · intro p hp hpc q hq hqp
    rw [hrows] at hq
    have h2 : q.2 ∈ (f.rows.filter (fun r => rowComplete r.2)).map Prod.snd := by
      have := List.mem_map_of_mem Prod.snd hq
      rwa [List.enum_map_snd] at this
    obtain ⟨r, hr, hre⟩ := List.mem_map.1 h2
    have hrc := (List.mem_filter.1 hr).2
    rw [hre, hqp, hpc] at hrc
    exact Bool.noConfusion hrc

/-- C10 witness: the statement at a concrete frame whose middle row has a
null in a non-epoch column. -/
theorem c10_witness :
    (∀ p ∈ (reset_index (dropna frameW10)).rows, rowComplete p.2 = true) ∧
    (reset_index (dropna frameW10)).rows.map Prod.fst =
      List.range (reset_index (dropna frameW10)).rows.length ∧
    (∀ p ∈ frameW10.rows, rowComplete p.2 = false →
      ∀ q ∈ (reset_index (dropna frameW10)).rows, q.2 ≠ p.2) :=
  c10_drop_step frameW10

/-! ### Monotonicity of the derived time column -/

lemma getCell_filter (pfn : String → Bool) {c : String} (hc : pfn c = true) (r : Row) :
    getCell (r.filter (fun kv => pfn kv.1)) c = getCell r c := by
  simp [getCell, lookup_filter pfn hc]

lemma getCell_setCellRow_self (c : String) (v : Option Int) (r : Row) (cols : List String)
    (hk : r.map Prod.fst = cols) :
    getCell (setCellRow c v (cols.contains c) r) c = v := by
  cases hpres : cols.contains c with
  | false =>
    show getCell (r ++ [(c, v)]) c = v
    have hnm : c ∉ r.map Prod.fst := by
      rw [hk]
      intro hmem
      have hx : cols.contains c = true := List.elem_eq_true_of_mem hmem
      rw [hpres] at hx
      exact Bool.noConfusion hx
    simp [getCell, lookup_append_right _ hnm, List.lookup]
  | true =>
    show getCell (r.map (fun kv => (kv.1, if kv.1 == c then v else kv.2))) c = v
    have hmem : c ∈ r.map Prod.fst := by
      rw [hk]
      exact List.mem_of_elem_eq_true hpres
    obtain ⟨w, hw⟩ := Option.isSome_iff_exists.1 (lookup_isSome_of_mem hmem)
    have h2 : getCell (r.map (fun kv => (kv.1, if kv.1 == c then v else kv.2))) c =
        ((List.lookup c r).map (fun w => if c == c then v else w)).join :=
      getCell_map_value (fun k w => if k == c then v else w) r c
    rw [h2, hw]
    simp

lemma rowTime_le_of_chron {r s : Row} (hch : chronRowB r s = true)
    (hvr : nanosValidB r = true) (hvs : nanosValidB s = true) :
    cellLe (rowTimeNs r) (rowTimeNs s) := by
  intro a b ha hb
  cases hs1 : getCell r "secs_since_epoch" with
  | none => simp [rowTimeNs, hs1] at ha
  | some s1 =>
  cases hn1 : getCell r "nanos_since_epoch" with
  | none => simp [rowTimeNs, hs1, hn1] at ha
  | some n1 =>
  cases hs2 : getCell s "secs_since_epoch" with
  | none => simp [rowTimeNs, hs2] at hb
  | some s2 =>
  cases hn2 : getCell s "nanos_since_epoch" with
  | none => simp [rowTimeNs, hs2, hn2] at hb
  | some n2 =>
  have ha' : s1 * 1000000000 + n1 = a := by
    simpa [rowTimeNs, hs1, hn1] using ha
  have hb' : s2 * 1000000000 + n2 = b := by
    simpa [rowTimeNs, hs2, hn2] using hb
  have hlex : s1 < s2 ∨ (s1 = s2 ∧ n1 ≤ n2) := by
    have := hch
    simp only [chronRowB, hs1, hn1, hs2, hn2] at this
    exact of_decide_eq_true this
  have hb1 : 0 ≤ n1 ∧ n1 < 1000000000 := by
    have := hvr
    simp only [nanosValidB, hn1] at this
    exact of_decide_eq_true this
  have hb2 : 0 ≤ n2 ∧ n2 < 1000000000 := by
    have := hvs
    simp only [nanosValidB, hn2] at this
    exact of_decide_eq_true this
  rcases hlex with hlt | ⟨heq, hle⟩
  · have hstep : (s1 + 1) * 1000000000 ≤ s2 * 1000000000 := by
      have : s1 + 1 ≤ s2 := hlt
      exact mul_le_mul_of_nonneg_right this (by norm_num)
    have : s1 * 1000000000 + n1 < s2 * 1000000000 + n2 := by nlinarith [hb1.2, hb2.1]
    omega
  · subst heq
    omega

lemma rowTimeNs_shiftRow {r : Row} (nxt : Option Row)
    (hsm : "secs_since_epoch" ∈ r.map Prod.fst)
    (hnm : "nanos_since_epoch" ∈ r.map Prod.fst) :
    rowTimeNs (shiftRow epochCols r nxt) = nxt.bind rowTimeNs := by
  have hA := getCell_shiftRow epochCols r nxt "secs_since_epoch" hsm (by decide)
  have hB := getCell_shiftRow epochCols r nxt "nanos_since_epoch" hnm (by decide)
  cases nxt with
  | none =>
    simp only [Option.bind] at hA hB ⊢
    simp [rowTimeNs, hA, hB]
  | some nr =>
    simp only [Option.bind] at hA hB ⊢
    rw [rowTimeNs, hA, hB, rowTimeNs]

lemma times_shiftRows_mem :
    ∀ (l : List (Nat × Row)),
      (∀ p ∈ l, "secs_since_epoch" ∈ p.2.map Prod.fst ∧
        "nanos_since_epoch" ∈ p.2.map Prod.fst) →
      ∀ p ∈ shiftRows epochCols l,
        rowTimeNs p.2 = none ∨ ∃ q ∈ l, rowTimeNs p.2 = rowTimeNs q.2
  | [], _, p, hp => by simp [shiftRows] at hp
  | [q], hk, p, hp => by
    have hp' : p = (q.1, shiftRow epochCols q.2 none) := by simpa [shiftRows] using hp
    left
    rw [hp']
    show rowTimeNs (shiftRow epochCols q.2 none) = none
    rw [rowTimeNs_shiftRow none (hk q (by simp)).1 (hk q (by simp)).2]
    rfl
  | q :: q2 :: rest, hk, p, hp => by
    rcases List.mem_cons.1 hp with he | htail
    · right
      refine ⟨q2, by simp, ?_⟩
      rw [he]
      show rowTimeNs (shiftRow epochCols q.2 (some q2.2)) = rowTimeNs q2.2
      rw [rowTimeNs_shiftRow (some q2.2) (hk q (by simp)).1 (hk q (by simp)).2]
      rfl
    · rcases times_shiftRows_mem (q2 :: rest)
        (fun x hx => hk x (List.mem_cons_of_mem _ hx)) p htail with hnone | ⟨z, hz, hze⟩
      · exact Or.inl hnone
      · exact Or.inr ⟨z, List.mem_cons_of_mem _ hz, hze⟩

lemma cellLe_refl_rowTime (r : Row) : cellLe (rowTimeNs r) (rowTimeNs r) := by
  intro a b ha hb
  rw [ha] at hb
  exact le_of_eq (Option.some.inj hb)

lemma pairwise_times_shiftRows :
    ∀ (l : List (Nat × Row)),
      (∀ p ∈ l, "secs_since_epoch" ∈ p.2.map Prod.fst ∧
        "nanos_since_epoch" ∈ p.2.map Prod.fst) →
      l.Pairwise (fun p q => cellLe (rowTimeNs p.2) (rowTimeNs q.2)) →
      (shiftRows epochCols l).Pairwise (fun p q => cellLe (rowTimeNs p.2) (rowTimeNs q.2))
  | [], _, _ => by simp [shiftRows]
  | [q], _, _ => by simp [shiftRows]
  | q :: q2 :: rest, hk, hp => by
    have htail := pairwise_times_shiftRows (q2 :: rest)
      (fun x hx => hk x (List.mem_cons_of_mem _ hx)) (List.Pairwise.of_cons hp)
    show List.Pairwise _ ((q.1, shiftRow epochCols q.2 (some q2.2)) :: shiftRows epochCols (q2 :: rest))
    refine List.Pairwise.cons ?_ htail
    intro y hy
    show cellLe (rowTimeNs (shiftRow epochCols q.2 (some q2.2))) (rowTimeNs y.2)
    have hhead : rowTimeNs (shiftRow epochCols q.2 (some q2.2)) = rowTimeNs q2.2 := by
      rw [rowTimeNs_shiftRow (some q2.2) (hk q (by simp)).1 (hk q (by simp)).2]
      rfl
    rw [hhead]
    rcases times_shiftRows_mem (q2 :: rest)
      (fun x hx => hk x (List.mem_cons_of_mem _ hx)) y hy with hnone | ⟨z, hz, hze⟩
    · rw [hnone]
      intro a b _ hb
      exact absurd hb (by simp)
    · rw [hze]
      rcases List.mem_cons.1 hz with he | htl
      · rw [he]
        exact cellLe_refl_rowTime q2.2
      · exact List.rel_of_pairwise_cons (List.Pairwise.of_cons hp) htl

/-- C8: for every input whose records are chronologically ordered — the
pair (secs_since_epoch, nanos_since_epoch) is lexicographically
non-decreasing across the normalized rows, with the nanoseconds cells
sub-second remainders as the data model requires — the derived time column
of the Time Reconstructor output is monotonically non-decreasing. -/
theorem c8_monotone_time (recs : List Record) (g : Frame)
    (hnv : ∀ p ∈ (json_normalize recs).rows, nanosValidB p.2 = true)
    (hchron : (json_normalize recs).rows.Pairwise (fun p q => chronRowB p.2 q.2 = true))
    (hg : timeReconstruct (json_normalize recs) = some g) :
    (g.rows.map (fun p => getCell p.2 "time")).Pairwise cellLe := by
  obtain ⟨f1, f3, h1, h3, hdrop⟩ := timeReconstruct_some hg
  obtain ⟨hall1, hf1⟩ := shiftFrame_some h1
  obtain ⟨hcols2, hf3⟩ := addTimeColumn_some h3
  obtain ⟨hall3, hgeq⟩ := dropColumns_some hdrop
  have hrowseq : (reset_index (dropna f1)).rows =
      (((shiftRows epochCols (json_normalize recs).rows).filter
        (fun x => rowComplete x.2)).map Prod.snd).enum := by
    rw [hf1]
    rfl
  have hprescol : (reset_index (dropna f1)).cols = frameCols recs := by
    rw [hf1]
    rfl
  have hkeys2 : ∀ p ∈ (reset_index (dropna f1)).rows, p.2.map Prod.fst = frameCols recs := by
    intro p hp
    rw [hrowseq] at hp
    have hmem := List.mem_map_of_mem Prod.snd hp
    rw [List.enum_map_snd] at hmem
    obtain ⟨q, hq, hqe⟩ := List.mem_map.1 hmem
    rw [← hqe]
    exact keys_shiftRows_uniform epochCols (frameCols recs) (json_normalize recs).rows
      (keys_json_normalize recs) q (List.mem_filter.1 hq).1
  have hkrec : ∀ p ∈ (json_normalize recs).rows,
      "secs_since_epoch" ∈ p.2.map Prod.fst ∧ "nanos_since_epoch" ∈ p.2.map Prod.fst := by
    intro p hp
    rw [keys_json_normalize recs p hp]
    constructor
    · have hc := List.all_eq_true.1 hall1 "secs_since_epoch" (by simp [epochCols])
      exact List.mem_of_elem_eq_true hc
    · have hc := List.all_eq_true.1 hall1 "nanos_since_epoch" (by simp [epochCols])
      exact List.mem_of_elem_eq_true hc
  have hp0 : (json_normalize recs).rows.Pairwise
      (fun p q => cellLe (rowTimeNs p.2) (rowTimeNs q.2)) := by
    refine List.Pairwise.imp_of_mem ?_ hchron
    intro a b ha hb hab
    exact rowTime_le_of_chron hab (hnv a ha) (hnv b hb)
  have hshift := pairwise_times_shiftRows (json_normalize recs).rows hkrec hp0
  have hpf : ((shiftRows epochCols (json_normalize recs).rows).filter
      (fun x => rowComplete x.2)).Pairwise
        (fun p q => cellLe (rowTimeNs p.2) (rowTimeNs q.2)) :=
    List.Pairwise.sublist (List.filter_sublist _) hshift
  subst hgeq hf3
  rw [List.map_map, List.map_map]
  have hcell : ∀ p ∈ (reset_index (dropna f1)).rows,
      (fun x : Nat × Row => getCell ((setCellRow "time" (rowTimeNs x.2)
          ((reset_index (dropna f1)).cols.contains "time") x.2).filter
          (fun kv => !epochCols.contains kv.1)) "time") p =
      (fun x : Nat × Row => rowTimeNs x.2) p := by
    intro p hp
    show getCell ((setCellRow "time" (rowTimeNs p.2)
        ((reset_index (dropna f1)).cols.contains "time") p.2).filter
        (fun kv => !epochCols.contains kv.1)) "time" = rowTimeNs p.2
    rw [getCell_filter (fun c => !epochCols.contains c) (by decide), hprescol]
    exact getCell_setCellRow_self "time" (rowTimeNs p.2) p.2 (frameCols recs) (hkeys2 p hp)
  have hmap1 := List.map_congr_left hcell
  have hmap2 : (reset_index (dropna f1)).rows.map (fun x : Nat × Row => rowTimeNs x.2) =
      ((shiftRows epochCols (json_normalize recs).rows).filter
        (fun x => rowComplete x.2)).map (fun p => rowTimeNs p.2) := by
    rw [hrowseq]
    exact (enum_map_snd_fun rowTimeNs _).trans (List.map_map _ _ _)
  have hfinal : ((shiftRows epochCols (json_normalize recs).rows).filter
      (fun x => rowComplete x.2)).map (fun p => rowTimeNs p.2) |>.Pairwise cellLe :=
    List.pairwise_map.2 hpf
  exact (hmap1.trans hmap2) ▸ hfinal

/-- C8 witness: the monotone time column at a concrete chronologically
ordered three-record input. -/
theorem c8_witness :
    (frameW8out.rows.map (fun p => getCell p.2 "time")).Pairwise cellLe :=
  c8_monotone_time recsW8 frameW8out (by decide) (by decide) rfl

/-- C4 amended: for the empty outer sequence, the flattened sequence is
empty and the normalized frame is the empty frame, but the shift step
raises a column-lookup error (modelled as `none`) because the two epoch
columns are absent, so the whole Time Reconstructor fails. -/
theorem c4_amended :
    flattenNested [] = [] ∧
    json_normalize (flattenNested []) = ⟨[], []⟩ ∧
    shiftFrame (json_normalize (flattenNested [])) epochCols = none ∧
    timeReconstruct (json_normalize (flattenNested [])) = none :=
  ⟨rfl, rfl, rfl, rfl⟩

end Njord

